import Mathlib

/-!
Shallow embedding of the faiss `IndexFlatUpdate` / `IndexFlatUpdateCodes` pair
(files faiss/IndexFlatUpdate.{h,cpp}; an earlier revision of the .cpp without
label indirection also provides `range_search` and `compute_distance_subset`).

Modelling conventions:
* `idx_t` counters that are provably non-negative (`ntotal`, `nremove`,
  `labelcount`) are `Nat`; labels and map values are `Int` (the code stores the
  sentinel -1 in both `label` and `label_lookup_`).
* The code buffer is byte-addressed in C++ but every read/write in this code is
  slot-aligned (offsets are always a multiple of `code_size = d * sizeof(float)`
  and lengths a multiple of `code_size`), so `codes` is modelled as a list of
  slots, each slot a list of `d` float words; since `sa_encode`/`sa_decode` are
  raw `memcpy`s, a float word is modelled as its bit pattern, an `Int`.
* `std::set<idx_t> deleted_elements` is a sorted duplicate-free list;
  `*begin()` is the head, `insert` is sorted insertion ignoring duplicates.
* `std::unordered_map` `label_lookup_` is an association list with
  cons-shadowing update; `operator[]` on an absent key default-inserts 0,
  exactly as in C++.
* `FAISS_THROW_IF_NOT` / `FAISS_THROW_MSG` become `Except.error`.  C++
  exceptions leave the object mutated in place, so `mark_deleted` returns the
  state as of the throw point together with the message.
* Out-of-range `std::vector` reads/writes are UB in C++; the model uses the
  usual total `List.set` (no-op out of range) / `List.getD` (default out of
  range).  All claims are settled on in-range executions except where the
  divergence is itself the point, and that is called out in the theorem text.
-/

namespace FaissFlatUpdate

/-- Metric types as far as the branch structure of this code distinguishes
them: the two primary metrics and the family of extra metrics, which
`is_similarity_metric` splits into similarity and dissimilarity ones. -/
inductive MetricType where
  | metric_inner_product
  | metric_l2
  | metric_extra (isSim : Bool)
deriving DecidableEq

/-- Modelled from the spec: `is_similarity_metric` classifies inner product and
the similarity-style extra metrics as similarity metrics (the helper lives in
the external MetricType header, not in this repository's sources). -/
def is_similarity_metric : MetricType → Bool
  | .metric_inner_product => true
  | .metric_l2 => false
  | .metric_extra b => b

/-- The mutable fields of `IndexFlatUpdateCodes` (plus the inherited `Index`
fields `d`, `is_trained`, `metric_type`, `metric_arg`, `ntotal`). -/
structure IndexState where
  d : Nat
  is_trained : Bool
  metric_type : MetricType
  metric_arg : Int
  ntotal : Nat
  nremove : Nat
  labelcount : Nat
  label_lookup_ : List (Int × Int)
  is_deleted : List Bool
  label : List Int
  deleted_elements : List Nat
  codes : List (List Int)
deriving DecidableEq

/-- Association-list lookup, `none` when the key is absent. -/
def mapFind? (m : List (Int × Int)) (k : Int) : Option Int :=
  (m.find? (fun p => p.1 == k)).map (fun p => p.2)

/-- `unordered_map::operator[]` read on a key known (or assumed) present:
absent keys read as the value-initialized 0. -/
def mapFind (m : List (Int × Int)) (k : Int) : Int :=
  (mapFind? m k).getD 0

/-- `unordered_map` store: cons-shadowing update. -/
def mapSet (m : List (Int × Int)) (k v : Int) : List (Int × Int) :=
  (k, v) :: m

/-- `std::set<idx_t>::insert`: sorted insertion, no-op on a duplicate. -/
def setInsert (a : Nat) : List Nat → List Nat
  | [] => [a]
  | b :: l =>
    if a < b then a :: b :: l
    else if a = b then b :: l
    else b :: setInsert a l

/-- The `pos`-th input vector: `&x[pos*d]`, `d` floats. -/
def vecAt (x : List Int) (d pos : Nat) : List Int :=
  (x.drop (pos * d)).take d

/-- The input vectors `pos, pos+1, ..., n-1` of the flat input array. -/
def vecsRange (x : List Int) (d pos n : Nat) : List (List Int) :=
  (List.range (n - pos)).map (fun i => vecAt x d (pos + i))

/-- `std::vector::resize(m, fill)`: truncate or extend with `fill`. -/
def listResize (l : List α) (m : Nat) (fill : α) : List α :=
  l.take m ++ List.replicate (m - l.length) fill

/-- Block write of consecutive slots starting at `start`
(`sa_encode(m, src, codes.data() + start * code_size)`). -/
def writeVecs (codes : List (List Int)) (start : Nat) : List (List Int) → List (List Int)
  | [] => codes
  | v :: vs => writeVecs (codes.set start v) (start + 1) vs

/-- One iteration body of the recycling loop of `IndexFlatUpdateCodes::add`:
pop the smallest free slot `id` (and erase it, leaving `rest`), encode input
vector `pos` into its region, decrement `nremove`, clear its tombstone bit,
retire the old label (its reverse entry is set to -1), mint label `labelcount`
and bind it both ways, increment `labelcount`. -/
def recycleStep (x : List Int) (s : IndexState) (id : Nat) (rest : List Nat)
    (pos : Nat) : IndexState :=
  { s with
    deleted_elements := rest,
    codes := s.codes.set id (vecAt x s.d pos),
    nremove := s.nremove - 1,
    is_deleted := s.is_deleted.set id false,
    label_lookup_ := mapSet (mapSet s.label_lookup_ (s.label.getD id 0) (-1))
      (Int.ofNat s.labelcount) (Int.ofNat id),
    label := s.label.set id (Int.ofNat s.labelcount),
    labelcount := s.labelcount + 1 }

/-- The recycling `while (!deleted_elements.empty())` loop of
`IndexFlatUpdateCodes::add`.  The scrutinized list is the current
`deleted_elements` (the loop reads `*begin()` and erases it each iteration);
the state's field is kept in sync.  After each iteration the loop breaks when
`pos == n` or `nremove == 0`.  Returns the final `pos` and state. -/
def recycleGo (x : List Int) (n : Nat) : List Nat → IndexState → Nat → Nat × IndexState
  | [], s, pos => (pos, s)
  | id :: rest, s, pos =>
    let s1 := recycleStep x s id rest pos
    if pos + 1 = n ∨ s1.nremove = 0 then (pos + 1, s1)
    else recycleGo x n rest s1 (pos + 1)

/-- The appending label loop of `add`:
`label[ntotal] = labelcount; label_lookup_[labelcount] = ntotal; ntotal++;
labelcount++;` repeated `m` times. -/
def appendLabels (s : IndexState) : Nat → IndexState
  | 0 => s
  | m + 1 => appendLabels { s with
      label := s.label.set s.ntotal (Int.ofNat s.labelcount),
      label_lookup_ := mapSet s.label_lookup_ (Int.ofNat s.labelcount) (Int.ofNat s.ntotal),
      ntotal := s.ntotal + 1,
      labelcount := s.labelcount + 1 } m

/-- `IndexFlatUpdateCodes::add(n, x)` (the revision with label indirection).
Asserts `is_trained`; returns immediately when `n == 0`; resizes `codes`,
`is_deleted` (fill `false`) and `label` (fill `-1`) to `ntotal + n` slots; if
`nremove > 0` runs the recycle loop, asserts
`deleted_elements.size() == nremove`, and, if input vectors remain, encodes
them at slot `ntotal`, does `ntotal += (n - pos)`, and then runs the append
loop (which increments `ntotal` again per vector — this is verbatim from the
source); otherwise encodes all `n` vectors at `ntotal` and runs the append
loop. -/
def addOp (s : IndexState) (n : Nat) (x : List Int) : Except String IndexState :=
  if s.is_trained = false then .error "is_trained" else
  if n = 0 then .ok s else
  let s0 : IndexState := { s with
    codes := listResize s.codes (s.ntotal + n) (List.replicate s.d 0),
    is_deleted := listResize s.is_deleted (s.ntotal + n) false,
    label := listResize s.label (s.ntotal + n) (-1) }
  if 0 < s0.nremove then
    let r := recycleGo x n s0.deleted_elements s0 0
    if r.2.deleted_elements.length ≠ r.2.nremove then
      .error "deleted_elements.size()==nremove"
    else if r.1 < n then
      let s2 : IndexState := { r.2 with
        codes := writeVecs r.2.codes r.2.ntotal (vecsRange x s.d r.1 n),
        ntotal := r.2.ntotal + (n - r.1) }
      .ok (appendLabels s2 (n - r.1))
    else .ok r.2
  else
    let s2 : IndexState := { s0 with
      codes := writeVecs s0.codes s0.ntotal (vecsRange x s.d 0 n) }
    .ok (appendLabels s2 n)

/-- `IndexFlatUpdateCodes::reset()`: clears `codes` and `is_deleted` and zeroes
`ntotal` and `nremove`.  It does not touch `deleted_elements`, `label`,
`label_lookup_` or `labelcount` — verbatim from the source. -/
def resetOp (s : IndexState) : IndexState :=
  { s with codes := [], is_deleted := [], ntotal := 0, nremove := 0 }

/-- `label_lookup_[L]` as an expression: `unordered_map::operator[]`
default-inserts 0 on an absent key, mutating the map. -/
def lookupGet (s : IndexState) (L : Int) : Int × IndexState :=
  match mapFind? s.label_lookup_ L with
  | some v => (v, s)
  | none => (0, { s with label_lookup_ := mapSet s.label_lookup_ L 0 })

/-- The validation/tombstoning loop of `mark_deleted`: for each label, resolve
it through `label_lookup_`, throw if the slot is already tombstoned (the state
at the throw point is returned with the message), else set the tombstone bit
and insert the slot into `deleted_elements`. -/
def markDeletedGo (s : IndexState) : List Int → Except (String × IndexState) IndexState
  | [] => .ok s
  | L :: rest =>
    if ((lookupGet s L).2.is_deleted.getD (lookupGet s L).1.toNat false) = true then
      .error ("is_deleted[id] == false", (lookupGet s L).2)
    else markDeletedGo { (lookupGet s L).2 with
      is_deleted := (lookupGet s L).2.is_deleted.set (lookupGet s L).1.toNat true,
      deleted_elements := setInsert (lookupGet s L).1.toNat (lookupGet s L).2.deleted_elements } rest

/-- `IndexFlatUpdateCodes::mark_deleted(sel)`: `nremove += sel.n` up front,
then the per-label loop. -/
def mark_deleted (s : IndexState) (ls : List Int) : Except (String × IndexState) IndexState :=
  markDeletedGo { s with nremove := s.nremove + ls.length } ls

/-- `IndexFlatUpdateCodes::reconstruct_n(i0, ni, recons)`: asserts
`ni == 0 || (i0 >= 0 && i0 + ni <= ntotal)`, then `sa_decode`s the `ni` slots
starting at slot `i0` (a straight copy). -/
def reconstruct_n (s : IndexState) (i0 ni : Int) : Except String (List Int) :=
  if ni == 0 || (0 ≤ i0 && i0 + ni ≤ (s.ntotal : Int)) then
    .ok (((s.codes.drop i0.toNat).take ni.toNat).flatten)
  else .error "ni == 0 || (i0 >= 0 && i0 + ni <= ntotal)"

/-- `IndexFlatUpdateCodes::reconstruct(key)`: `reconstruct_n(key, 1, recons)`. -/
def reconstructCodes (s : IndexState) (key : Int) : Except String (List Int) :=
  reconstruct_n s key 1

/-- `IndexFlatUpdate::reconstruct(key)` (the float specialization): a bare
`memcpy(recons, &codes[key * code_size], code_size)` — no bounds check of any
kind, hence no error path. -/
def reconstructFlat (s : IndexState) (key : Int) : Except String (List Int) :=
  .ok (((s.codes.drop key.toNat).take 1).flatten)

/-- One call into the external knn kernel layer, with the arguments the search
code passes (query block, base pointer, d, n, ntotal, k, and either the
selector or the metric/metric_arg pair). -/
inductive KernelCall where
  | knn_inner_product (x : List Int) (xb : List (List Int)) (d n ntotal k : Nat) (sel : Bool)
  | knn_L2sqr (x : List Int) (xb : List (List Int)) (d n ntotal k : Nat) (sel : Bool)
  | knn_extra_metrics (x : List Int) (xb : List (List Int)) (d n ntotal k : Nat)
      (mt : MetricType) (marg : Int)
deriving DecidableEq

/-- An external kernel: maps a call to the flat array of winning slot ids
(row-major, `k` per query), as the heap result structure holds them. -/
def KnnOracle : Type := KernelCall → List Int

/-- The forward map read `label[i]` used in the result rewrite loop. -/
def labelAt (s : IndexState) (i : Int) : Int :=
  s.label.getD i.toNat 0

/-- `IndexFlatUpdate::search` (revision with label indirection): asserts
`k > 0`; dispatches on the metric (inner product / L2 / similarity extra /
dissimilarity extra, the last asserting `!sel`), runs the corresponding kernel,
then rewrites every id in the result array through the forward map
(`res.ids[i] = label[res.ids[i]]`). -/
def searchOp (K : KnnOracle) (s : IndexState) (n : Nat) (x : List Int) (k : Int)
    (sel : Bool) : Except String (List Int) :=
  if ¬ (0 < k) then .error "k > 0" else
  if s.metric_type = .metric_inner_product then
    .ok ((K (.knn_inner_product x s.codes s.d n s.ntotal k.toNat sel)).map (labelAt s))
  else if s.metric_type = .metric_l2 then
    .ok ((K (.knn_L2sqr x s.codes s.d n s.ntotal k.toNat sel)).map (labelAt s))
  else if is_similarity_metric s.metric_type then
    .ok ((K (.knn_extra_metrics x s.codes s.d n s.ntotal k.toNat s.metric_type s.metric_arg)).map
      (labelAt s))
  else
    if sel then .error "!sel" else
    .ok ((K (.knn_extra_metrics x s.codes s.d n s.ntotal k.toNat s.metric_type s.metric_arg)).map
      (labelAt s))

/-- The kernel call each metric branch of `search` issues (for stating that the
search output is the label image of that call's slot ids). -/
def scanCall (s : IndexState) (n : Nat) (x : List Int) (k : Int) (sel : Bool) : KernelCall :=
  if s.metric_type = .metric_inner_product then
    .knn_inner_product x s.codes s.d n s.ntotal k.toNat sel
  else if s.metric_type = .metric_l2 then
    .knn_L2sqr x s.codes s.d n s.ntotal k.toNat sel
  else
    .knn_extra_metrics x s.codes s.d n s.ntotal k.toNat s.metric_type s.metric_arg

/-- `IndexFlatUpdate::range_search`: switch on the metric — inner product and
L2 call the external range kernels, every other metric throws
"metric type not supported". -/
def range_search (s : IndexState) (n : Nat) (x : List Int) (radius : Int)
    (sel : Bool) : Except String Unit :=
  match s.metric_type with
  | .metric_inner_product => .ok ()
  | .metric_l2 => .ok ()
  | _ => .error "metric type not supported"

/-- `IndexFlatUpdate::compute_distance_subset`: switch on the metric — inner
product and L2 call the by-idx kernels, every other metric throws
"metric type not supported". -/
def compute_distance_subset (s : IndexState) (n : Nat) (x : List Int) (k : Nat)
    (cand : List Int) : Except String Unit :=
  match s.metric_type with
  | .metric_inner_product => .ok ()
  | .metric_l2 => .ok ()
  | _ => .error "metric type not supported"

/-- One caller-level operation, for stating claims about operation sequences. -/
inductive Op where
  | add (n : Nat) (x : List Int)
  | mdel (ls : List Int)
  | reset

/-- Run one operation (an exception aborts with its message). -/
def runOp (s : IndexState) : Op → Except String IndexState
  | .add n x => addOp s n x
  | .mdel ls =>
    match mark_deleted s ls with
    | .ok s1 => .ok s1
    | .error e => .error e.1
  | .reset => .ok (resetOp s)

/-- Run a sequence of operations from a state. -/
def runOps (s : IndexState) : List Op → Except String IndexState
  | [] => .ok s
  | op :: rest =>
    match runOp s op with
    | .ok s1 => runOps s1 rest
    | .error e => .error e

/-- A freshly constructed `IndexFlatUpdate(d, metric)`: empty storage, trained
(the base `Index` constructor leaves `is_trained = true`). -/
def initState (d : Nat) (mt : MetricType) : IndexState :=
  { d := d, is_trained := true, metric_type := mt, metric_arg := 0,
    ntotal := 0, nremove := 0, labelcount := 0, label_lookup_ := [],
    is_deleted := [], label := [], deleted_elements := [], codes := [] }

/-- The state an `Except`-valued run ended in (meaningful when it succeeded). -/
def okState : Except String IndexState → IndexState
  | .ok s => s
  | .error _ => initState 0 .metric_l2

/-- Did the call complete without throwing? -/
def isOkE {α : Type} : Except String α → Bool
  | .ok _ => true
  | .error _ => false

/-- Modelled from the spec: the external L2 distance kernel
`fvec_L2sqr(a, b, d)` (squared Euclidean distance), over exact values — the
numeric kernel library is outside this repository's sources. -/
def fvec_L2sqr (a b : List Int) : Int :=
  (List.zipWith (fun u v => (u - v) * (u - v)) a b).sum

/-- Insert a slot id into a list kept sorted by ascending key. -/
def insertByKey (key : Int → Int) (i : Int) : List Int → List Int
  | [] => [i]
  | j :: l => if key i < key j then i :: j :: l else j :: insertByKey key i l

/-- Sort slot ids by ascending key (insertion sort). -/
def sortByKey (key : Int → Int) : List Int → List Int
  | [] => []
  | i :: l => insertByKey key i (sortByKey key l)

/-- Modelled from the spec: the external full-scan kernel `knn_L2sqr` — for
each query it scores every slot in `[0, ntotal)` (no tombstone filtering, per
the spec's documented limitation) and keeps the `k` slots of smallest squared
L2 distance, emitted in ascending-distance order, `k` ids per query. -/
def knnScanL2 (x : List Int) (xb : List (List Int)) (d n ntotal k : Nat) : List Int :=
  ((List.range n).map (fun qi =>
    (sortByKey (fun i => fvec_L2sqr (vecAt x d qi) (xb.getD i.toNat []))
      ((List.range ntotal).map Int.ofNat)).take k)).flatten

/-- Modelled from the spec: an oracle that implements the L2 kernel by the
full scan above and is arbitrary elsewhere. -/
def modelOracle : KnnOracle := fun c =>
  match c with
  | .knn_L2sqr x xb d n ntotal k _ => knnScanL2 x xb d n ntotal k
  | _ => []

/-- The state transformation the recycle loop performs when it consumes the
whole free list (one `recycleStep` per element, in list order): the reference
walk used to characterize `recycleGo`. -/
def recSpec (x : List Int) : List Nat → IndexState → Nat → IndexState
  | [], s, _ => s
  | id :: rest, s, pos => recSpec x rest (recycleStep x s id rest pos) (pos + 1)

/-- The slot a label currently resolves to through the reverse map
(`label_lookup_[L]`, absent keys reading as 0), as a list index. -/
def slotOfL (s : IndexState) (L : Int) : Nat :=
  (mapFind s.label_lookup_ L).toNat

/-- Operation sequence exercising the recycle-then-append path of `add`:
one insert, one delete, then an insert of two vectors (so one vector recycles
slot 0 and one must be appended). -/
def opsBug : List Op := [.add 1 [5], .mdel [0], .add 2 [7, 9]]

/-- The state just before the final add of `opsBug`. -/
def stPre : IndexState := okState (runOps (initState 1 .metric_l2) [.add 1 [5], .mdel [0]])

/-- The state after running all of `opsBug` from an empty one-dimensional
index. -/
def stBug : IndexState := okState (runOps (initState 1 .metric_l2) opsBug)

/-- State after insert, delete, reset — exercising `reset` with a pending
removal. -/
def stReset : IndexState := okState (runOps (initState 1 .metric_l2) [.add 1 [5], .mdel [0], .reset])

/-- Operation sequence in which the free-list entry that `reset` fails to
clear later trips `add`'s own `deleted_elements.size()==nremove` assertion. -/
def opsStale : List Op :=
  [.add 2 [5, 6], .mdel [1], .reset, .add 1 [7], .mdel [2], .add 1 [8]]

/-- A one-vector index (d = 1, L2): slot 0 holds `[5]`. -/
def stOne : IndexState := okState (addOp (initState 1 .metric_l2) 1 [5])

/-- A state that already has a tombstoned slot (slot 0) before the
delete-then-insert pair of the recycling claim: three inserts, then delete
label 0. -/
def stHasTomb : IndexState :=
  okState (runOps (initState 1 .metric_l2) [.add 3 [5, 6, 7], .mdel [0]])

/-- `stHasTomb` after additionally deleting label 2 and inserting one vector:
the insert recycles slot 0 (the smallest free slot), not slot 2 (the one just
freed), and one pending removal survives. -/
def stTomb2 : IndexState := okState (runOps stHasTomb [.mdel [2], .add 1 [9]])

/-- Two vectors `[0]` and `[10]` (d = 1, L2) with the first one tombstoned:
the fixture for the tombstone-visibility claim. -/
def stSearchTomb : IndexState :=
  okState (runOps (initState 1 .metric_l2) [.add 2 [0, 10], .mdel [0]])

/-- A three-vector index (d = 1, L2): slots 0, 1, 2 hold `[5]`, `[6]`, `[7]`
with labels 0, 1, 2 and no tombstones. -/
def stThree : IndexState := okState (addOp (initState 1 .metric_l2) 3 [5, 6, 7])

/- Basic list lemmas used by the operation-level proofs. -/

theorem getD_set_ne {α : Type} (l : List α) (i j : Nat) (a d : α) (h : i ≠ j) :
    (l.set i a).getD j d = l.getD j d := by
  simp [List.getD_eq_getElem?_getD, List.getElem?_set_ne h]

theorem getD_set_self_of_lt {α : Type} (l : List α) (i : Nat) (a d : α)
    (h : i < l.length) :
    (l.set i a).getD i d = a := by
  have h2 : i < (l.set i a).length := by simp [h]
  simp [List.getD_eq_getElem?_getD, List.getElem?_eq_getElem h2]

theorem getD_set_true_mono (l : List Bool) (i j : Nat)
    (h : l.getD j false = true) :
    (l.set i true).getD j false = true := by
  rcases eq_or_ne i j with rfl | hne
  · rcases Nat.lt_or_ge i l.length with hlt | hge
    · exact getD_set_self_of_lt l i true false hlt
    · rw [List.set_eq_of_length_le hge]; exact h
  · rw [getD_set_ne _ _ _ _ _ hne]; exact h

theorem mem_setInsert (a b : Nat) (l : List Nat) :
    b ∈ setInsert a l ↔ b = a ∨ b ∈ l := by
  induction l with
  | nil => simp [setInsert]
  | cons c t ih =>
    unfold setInsert
    split_ifs with h1 h2
    · simp [List.mem_cons]
    · subst h2; simp [List.mem_cons]
    · simp [List.mem_cons, ih]; tauto

theorem sorted_setInsert (a : Nat) (l : List Nat) (h : l.Sorted (· < ·)) :
    (setInsert a l).Sorted (· < ·) := by
  induction l with
  | nil => simp [setInsert]
  | cons c t ih =>
    rw [List.sorted_cons] at h
    unfold setInsert
    split_ifs with h1 h2
    · rw [List.sorted_cons]
      refine ⟨?_, List.sorted_cons.mpr h⟩
      intro b hb
      rcases List.mem_cons.mp hb with rfl | hb
      · exact h1
      · exact lt_trans h1 (h.1 b hb)
    · exact List.sorted_cons.mpr h
    · rw [List.sorted_cons]
      refine ⟨?_, ih h.2⟩
      intro b hb
      rcases (mem_setInsert a b t).mp hb with rfl | hb
      · omega
      · exact h.1 b hb

theorem length_setInsert_of_not_mem (a : Nat) (l : List Nat) (h : a ∉ l) :
    (setInsert a l).length = l.length + 1 := by
  induction l with
  | nil => rfl
  | cons c t ih =>
    simp only [List.mem_cons, not_or] at h
    unfold setInsert
    split_ifs with h1 h2
    · simp
    · exact absurd h2 h.1
    · simp [ih h.2]

/- The bounds behavior of the reconstruction family. -/

theorem reconstruct_n_isOk (s : IndexState) (i0 ni : Int) (hni : ni ≠ 0) :
    isOkE (reconstruct_n s i0 ni) = true ↔ (0 ≤ i0 ∧ i0 + ni ≤ (s.ntotal : Int)) := by
  simp only [reconstruct_n]
  split
  · rename_i hcond
    simp only [Bool.or_eq_true, beq_iff_eq, Bool.and_eq_true, decide_eq_true_eq] at hcond
    rcases hcond with h0 | hio
    · exact absurd h0 hni
    · simp [isOkE, hio.1, hio.2]
  · rename_i hcond
    simp only [Bool.or_eq_true, beq_iff_eq, Bool.and_eq_true, decide_eq_true_eq,
      not_or, not_and] at hcond
    simp only [isOkE, Bool.false_eq_true, false_iff, not_and]
    exact hcond.2

/-- C4 amended: reconstruction through the checked forms — the range form
`reconstruct_n` and the base-class single-key form — succeeds exactly when the
requested slot range lies within `[0, physical_count)` and fails with a
bounds error otherwise; reconstruction never consults the tombstone bitmap,
so tombstoned slots within range are reconstructible; the float
specialization's single-key `reconstruct`, however, performs no bounds check,
so it never raises the bounds error the claim requires of it. -/
theorem c4_reconstruct_bounds (s : IndexState) (i0 ni key : Int) (td : List Bool)
    (hni : ni ≠ 0) :
    (isOkE (reconstruct_n s i0 ni) = true ↔ (0 ≤ i0 ∧ i0 + ni ≤ (s.ntotal : Int))) ∧
    (isOkE (reconstructCodes s key) = true ↔ (0 ≤ key ∧ key + 1 ≤ (s.ntotal : Int))) ∧
    reconstruct_n { s with is_deleted := td } i0 ni = reconstruct_n s i0 ni ∧
    reconstructFlat { s with is_deleted := td } key = reconstructFlat s key ∧
    isOkE (reconstructFlat s key) = true :=
  ⟨reconstruct_n_isOk s i0 ni hni,
   reconstruct_n_isOk s key 1 (by decide),
   rfl, rfl, rfl⟩

/-- C4 witness: the amended bounds theorem applied to the one-vector index at
an in-range request. -/
theorem c4_reconstruct_bounds_witness :
    (isOkE (reconstruct_n stOne 0 1) = true ↔
      (0 ≤ (0 : Int) ∧ (0 : Int) + 1 ≤ (stOne.ntotal : Int))) ∧
    (isOkE (reconstructCodes stOne 0) = true ↔
      (0 ≤ (0 : Int) ∧ (0 : Int) + 1 ≤ (stOne.ntotal : Int))) ∧
    reconstruct_n { stOne with is_deleted := [true] } 0 1 = reconstruct_n stOne 0 1 ∧
    reconstructFlat { stOne with is_deleted := [true] } 0 = reconstructFlat stOne 0 ∧
    isOkE (reconstructFlat stOne 0) = true :=
  c4_reconstruct_bounds stOne 0 1 0 [true] (by decide)

/-- C1: the postcondition of `add` fails on the code.  From the empty index,
after one insert and one delete (`stPre`: `ntotal = 1`, `nremove = 1`), a call
`add(2, ...)` recycles one slot and appends one vector, so the claim demands
`ntotal = 1 + 1 = 2`; the code performs `ntotal += (n - pos)` *and* then
increments `ntotal` once more per appended vector inside the label loop,
ending at `ntotal = 3`.  (`nremove` does decrease by the one slot recycled.) -/
theorem c1_add_ntotal_overcount :
    addOp stPre 2 [7, 9] = .ok stBug ∧
    stPre.ntotal = 1 ∧ stPre.nremove = 1 ∧
    stBug.nremove = 0 ∧ stBug.ntotal = 3 ∧
    ¬ stBug.ntotal = stPre.ntotal + 1 :=
  ⟨rfl, rfl, rfl, rfl, rfl, by decide⟩

/-- C2: `reset()` does not clear the free list and labels do not restart from
zero.  After insert, delete, reset (`stReset`), the buffer, bitmap, `ntotal`
and `nremove` are cleared, but `deleted_elements` still holds slot 0 and
`labelcount` is still 1, so the next insertion receives label 1, not 0.
The stale free-list entry even trips `add`'s own
`deleted_elements.size()==nremove` assertion later (`opsStale`), so the code
contradicts its own invariant check. -/
theorem c2_reset_leaves_freelist_and_labels :
    stReset.codes = [] ∧ stReset.is_deleted = [] ∧
    stReset.ntotal = 0 ∧ stReset.nremove = 0 ∧
    stReset.deleted_elements = [0] ∧ stReset.labelcount = 1 ∧
    (okState (addOp stReset 1 [3])).label.getD 0 0 = 1 ∧
    runOps (initState 1 .metric_l2) opsStale = .error "deleted_elements.size()==nremove" :=
  ⟨rfl, rfl, rfl, rfl, rfl, rfl, rfl, rfl⟩

/-- C3: the bijection invariant fails after a legal operation sequence.  After
`opsBug` (insert 1, delete it, insert 2) every slot is live, but slot 1 — the
slot into which the appended vector's bytes were actually encoded — has
forward label -1 (the resize fill) with no reverse entry at all, so
`label_lookup_[label[1]]` is 0 (the `unordered_map` default), not 1. -/
theorem c3_bijection_invariant_broken :
    runOps (initState 1 .metric_l2) opsBug = .ok stBug ∧
    stBug.is_deleted.getD 1 false = false ∧
    stBug.label.getD 1 0 = -1 ∧
    mapFind? stBug.label_lookup_ (stBug.label.getD 1 0) = none ∧
    ¬ mapFind stBug.label_lookup_ (stBug.label.getD 1 0) = 1 :=
  ⟨rfl, rfl, rfl, rfl, by decide⟩

/-- C4 counterexample: the float specialization's single-key `reconstruct`
performs no bounds check.  `stOne` has `physical_count = 1`, so key 5 is out
of `[0, 1)`, yet `IndexFlatUpdate::reconstruct` (a bare `memcpy` with no
assertion) raises no bounds error — the call "succeeds", contrary to the
claim's "including on the float-vector specialization". -/
theorem c4_flat_reconstruct_no_bounds_error :
    stOne.ntotal = 1 ∧ isOkE (reconstructFlat stOne 5) = true :=
  ⟨rfl, rfl⟩

/-- C5 counterexample: from an index state that already has a tombstoned slot
(`stHasTomb`: slot 0 tombstoned, `nremove = 1`), deleting label 2 (slot 2) and
then inserting m = 1 vector does not put the vector into the freed slot and
does not return `pending_removals` to 0: the insert recycles slot 0 (the
smallest free slot overall), slot 2 keeps its old bytes and stays tombstoned,
and `nremove` ends at 1. -/
theorem c5_recycling_fails_with_prior_tombstones :
    runOps stHasTomb [.mdel [2], .add 1 [9]] = .ok stTomb2 ∧
    stHasTomb.nremove = 1 ∧ stHasTomb.is_deleted.getD 0 false = true ∧
    slotOfL stHasTomb 2 = 2 ∧
    stTomb2.nremove = 1 ∧
    stTomb2.codes.getD 0 [] = [9] ∧
    stTomb2.codes.getD 2 [] = [7] ∧
    stTomb2.is_deleted.getD 2 false = true :=
  ⟨rfl, rfl, rfl, rfl, rfl, rfl, rfl, rfl⟩

/-- C6: the encode/reconstruct round trip fails on the code.  In `stBug` the
second vector of the final `add(2, {[7],[9]})` call was `[9]`; the label
minted for it is 2, which the reverse map sends to slot 2 — but because
`ntotal` was bumped by `(n - pos)` before the label loop, the vector's bytes
were encoded into slot 1 while label 2 was bound to slot 2, whose bytes are
still the resize fill `[0]`.  Reconstructing the slot the label maps to
returns `[0]`, not the inserted `[9]`. -/
theorem c6_roundtrip_broken :
    runOps (initState 1 .metric_l2) opsBug = .ok stBug ∧
    mapFind stBug.label_lookup_ 2 = 2 ∧
    reconstructCodes stBug 2 = .ok [0] ∧
    reconstructFlat stBug 2 = .ok [0] ∧
    stBug.codes.getD 1 [] = [9] ∧
    ¬ ([0] : List Int) = [9] :=
  ⟨rfl, rfl, rfl, rfl, rfl, by decide⟩

/-- C8: the full scan does not exclude tombstoned slots.  In `stSearchTomb`
slot 0 (vector `[0]`) is tombstoned but not yet recycled; an L2 search for
query `[0]` with `k = 1` over the spec-modelled full-scan kernel returns that
slot, rewritten to label 0 — the label it last held. -/
theorem c8_tombstoned_slot_wins_search :
    searchOp modelOracle stSearchTomb 1 [0] 1 false = .ok [0] ∧
    stSearchTomb.is_deleted.getD 0 false = true ∧
    stSearchTomb.nremove = 1 ∧
    labelAt stSearchTomb 0 = 0 :=
  ⟨rfl, rfl, rfl, rfl⟩

/-- C7: whenever `search` succeeds, the output identifier array is exactly the
image of the winning slot ids (the ids the metric branch's kernel call
produced) under the forward map `label`, so every returned identifier is a
label, not a raw slot id. -/
theorem c7_search_rewrites_slots_to_labels (K : KnnOracle) (s : IndexState) (n : Nat)
    (x : List Int) (k : Int) (sel : Bool) (out : List Int)
    (h : searchOp K s n x k sel = .ok out) :
    out = (K (scanCall s n x k sel)).map (labelAt s) ∧
    ∀ id ∈ out, ∃ i ∈ K (scanCall s n x k sel), id = labelAt s i := by
  have h1 : out = (K (scanCall s n x k sel)).map (labelAt s) := by
    unfold searchOp at h
    unfold scanCall
    split_ifs at h ⊢ <;> simp_all
  refine ⟨h1, ?_⟩
  intro id hid
  rw [h1] at hid
  rcases List.mem_map.mp hid with ⟨i, hi, hlab⟩
  exact ⟨i, hi, hlab.symm⟩

/-- C7 witness: the theorem applied to the concrete tombstone fixture under
the modelled L2 kernel. -/
theorem c7_search_rewrites_slots_to_labels_witness :
    ([0] : List Int) = (modelOracle (scanCall stSearchTomb 1 [0] 1 false)).map (labelAt stSearchTomb) ∧
    ∀ id ∈ ([0] : List Int), ∃ i ∈ modelOracle (scanCall stSearchTomb 1 [0] 1 false),
      id = labelAt stSearchTomb i :=
  c7_search_rewrites_slots_to_labels modelOracle stSearchTomb 1 [0] 1 false [0] rfl

/-- C9: `range_search` and `compute_distance_subset` succeed exactly for the
two primary metrics and throw "metric type not supported" otherwise, while
`search` (given `k > 0`) additionally accepts similarity extra metrics, and
dissimilarity extra metrics only without a selector. -/
theorem c9_metric_support (K : KnnOracle) (s : IndexState) (n : Nat) (x : List Int)
    (radius : Int) (sel : Bool) (k : Int) (kk : Nat) (cand : List Int) (hk : 0 < k) :
    (isOkE (range_search s n x radius sel) = true ↔
      (s.metric_type = .metric_inner_product ∨ s.metric_type = .metric_l2)) ∧
    (isOkE (compute_distance_subset s n x kk cand) = true ↔
      (s.metric_type = .metric_inner_product ∨ s.metric_type = .metric_l2)) ∧
    (isOkE (searchOp K s n x k sel) = true ↔
      (s.metric_type = .metric_inner_product ∨ s.metric_type = .metric_l2 ∨
        s.metric_type = .metric_extra true ∨
        (s.metric_type = .metric_extra false ∧ sel = false))) := by
  refine ⟨?_, ?_, ?_⟩ <;>
    rcases hmt : s.metric_type with _ | _ | b <;>
      (try cases b) <;> cases sel <;>
        simp [range_search, compute_distance_subset, searchOp, isOkE,
          is_similarity_metric, hk, hmt]

/- Lemmas about the `mark_deleted` loop. -/

theorem lookupGet_present (s : IndexState) (L : Int)
    (h : mapFind? s.label_lookup_ L = some (mapFind s.label_lookup_ L)) :
    lookupGet s L = (mapFind s.label_lookup_ L, s) := by
  unfold lookupGet
  rw [h]

theorem lookupGet_state_fields (s : IndexState) (L : Int) :
    (lookupGet s L).2.nremove = s.nremove ∧
    (lookupGet s L).2.is_deleted = s.is_deleted ∧
    (lookupGet s L).2.deleted_elements = s.deleted_elements := by
  unfold lookupGet
  cases hx : mapFind? s.label_lookup_ L <;> simp

theorem markDeletedGo_cons_dead (s : IndexState) (L : Int) (rest : List Int)
    (hp : mapFind? s.label_lookup_ L = some (mapFind s.label_lookup_ L))
    (hd : s.is_deleted.getD (slotOfL s L) false = true) :
    markDeletedGo s (L :: rest) = .error ("is_deleted[id] == false", s) := by
  simp only [markDeletedGo]
  rw [lookupGet_present s L hp]
  exact if_pos hd

theorem markDeletedGo_cons_live (s : IndexState) (L : Int) (rest : List Int)
    (hp : mapFind? s.label_lookup_ L = some (mapFind s.label_lookup_ L))
    (hl : s.is_deleted.getD (slotOfL s L) false = false) :
    markDeletedGo s (L :: rest) = markDeletedGo { s with
      is_deleted := s.is_deleted.set (slotOfL s L) true,
      deleted_elements := setInsert (slotOfL s L) s.deleted_elements } rest := by
  simp only [markDeletedGo]
  rw [lookupGet_present s L hp]
  exact if_neg (by rw [show ((mapFind s.label_lookup_ L, s)).2.is_deleted.getD
    ((mapFind s.label_lookup_ L, s)).1.toNat false = s.is_deleted.getD (slotOfL s L) false
    from rfl, hl]; simp)

theorem markDeletedGo_error_mono :
    ∀ (ls : List Int) (s s1 : IndexState) (msg : String),
    markDeletedGo s ls = .error (msg, s1) →
    s1.nremove = s.nremove ∧
    (∀ k, s.is_deleted.getD k false = true → s1.is_deleted.getD k false = true) ∧
    (∀ a ∈ s.deleted_elements, a ∈ s1.deleted_elements) := by
  intro ls
  induction ls with
  | nil => intro s s1 msg h; simp [markDeletedGo] at h
  | cons L rest ih =>
    intro s s1 msg h
    unfold markDeletedGo at h
    split at h
    · simp only [Except.error.injEq, Prod.mk.injEq] at h
      obtain ⟨hm, hs⟩ := h
      subst hs
      obtain ⟨h1, h2, h3⟩ := lookupGet_state_fields s L
      exact ⟨h1, fun k hk => by rw [h2]; exact hk, fun a ha => by rw [h3]; exact ha⟩
    · obtain ⟨e1, e2, e3⟩ := ih _ _ _ h
      obtain ⟨h1, h2, h3⟩ := lookupGet_state_fields s L
      refine ⟨by rw [e1]; exact h1, ?_, ?_⟩
      · intro k hk
        apply e2
        show ((lookupGet s L).2.is_deleted.set (lookupGet s L).1.toNat true).getD k false = true
        apply getD_set_true_mono
        rw [h2]; exact hk
      · intro a ha
        apply e3
        show a ∈ setInsert (lookupGet s L).1.toNat (lookupGet s L).2.deleted_elements
        rw [h3]
        exact (mem_setInsert _ _ _).mpr (Or.inr ha)

theorem markDeletedGo_fails :
    ∀ (pre : List Int) (Lbad : Int) (rest : List Int) (s : IndexState),
    (∀ L ∈ pre, mapFind? s.label_lookup_ L = some (mapFind s.label_lookup_ L)) →
    (∀ L ∈ pre, s.is_deleted.getD (slotOfL s L) false = false) →
    (∀ L ∈ pre, slotOfL s L < s.is_deleted.length) →
    ((pre.map (fun L => slotOfL s L)).Nodup) →
    mapFind? s.label_lookup_ Lbad = some (mapFind s.label_lookup_ Lbad) →
    s.is_deleted.getD (slotOfL s Lbad) false = true →
    ∃ s1, markDeletedGo s (pre ++ Lbad :: rest) = .error ("is_deleted[id] == false", s1) ∧
      s1.nremove = s.nremove ∧
      (∀ L ∈ pre, s1.is_deleted.getD (slotOfL s L) false = true ∧
        slotOfL s L ∈ s1.deleted_elements) := by
  intro pre
  induction pre with
  | nil =>
    intro Lbad rest s _ _ _ _ hbp hbd
    exact ⟨s, markDeletedGo_cons_dead s Lbad rest hbp hbd, rfl, by simp⟩
  | cons L pre' ih =>
    intro Lbad rest s hpres hlive hinb hnd hbp hbd
    have hpL : mapFind? s.label_lookup_ L = some (mapFind s.label_lookup_ L) :=
      hpres L (List.mem_cons_self L pre')
    have hlL : s.is_deleted.getD (slotOfL s L) false = false :=
      hlive L (List.mem_cons_self L pre')
    have hinbL : slotOfL s L < s.is_deleted.length :=
      hinb L (List.mem_cons_self L pre')
    have hnd2 : slotOfL s L ∉ pre'.map (fun L => slotOfL s L) ∧
        (pre'.map (fun L => slotOfL s L)).Nodup := by
      rw [List.map_cons, List.nodup_cons] at hnd
      exact hnd
    have hstep : markDeletedGo s ((L :: pre') ++ Lbad :: rest) =
        markDeletedGo { s with
          is_deleted := s.is_deleted.set (slotOfL s L) true,
          deleted_elements := setInsert (slotOfL s L) s.deleted_elements }
          (pre' ++ Lbad :: rest) :=
      markDeletedGo_cons_live s L (pre' ++ Lbad :: rest) hpL hlL
    obtain ⟨s1, heq, hnr, hfacts⟩ := ih Lbad rest
      { s with
        is_deleted := s.is_deleted.set (slotOfL s L) true,
        deleted_elements := setInsert (slotOfL s L) s.deleted_elements }
      (fun L' hL' => hpres L' (List.mem_cons_of_mem L hL'))
      (fun L' hL' => by
        show (s.is_deleted.set (slotOfL s L) true).getD (slotOfL s L') false = false
        rw [getD_set_ne]
        · exact hlive L' (List.mem_cons_of_mem L hL')
        · intro hcontra
          exact hnd2.1 (hcontra ▸ List.mem_map_of_mem (fun L => slotOfL s L) hL'))
      (fun L' hL' => by
        show slotOfL s L' < (s.is_deleted.set (slotOfL s L) true).length
        rw [List.length_set]
        exact hinb L' (List.mem_cons_of_mem L hL'))
      hnd2.2
      hbp
      (by
        show (s.is_deleted.set (slotOfL s L) true).getD (slotOfL s Lbad) false = true
        exact getD_set_true_mono _ _ _ hbd)
    obtain ⟨m1, m2, m3⟩ := markDeletedGo_error_mono _ _ _ _ heq
    refine ⟨s1, by rw [hstep]; exact heq, hnr, ?_⟩
    intro L' hL'
    rcases List.mem_cons.mp hL' with rfl | hL'
    · constructor
      · apply m2
        show (s.is_deleted.set (slotOfL s L') true).getD (slotOfL s L') false = true
        exact getD_set_self_of_lt _ _ _ _ hinbL
      · apply m3
        show slotOfL s L' ∈ setInsert (slotOfL s L') s.deleted_elements
        exact (mem_setInsert _ _ _).mpr (Or.inl rfl)
    · exact hfacts L' hL'

/-- C10: `mark_deleted` is not atomic on failure.  If the labels of a batch
resolve to live, distinct, in-range slots up to position `i` and the `i`-th
label resolves to an already-tombstoned slot, the call throws the
double-delete error, yet the state at the throw has `nremove` already
incremented by the *entire* batch length (it is bumped before any validation)
and the first `i` labels' slots already tombstoned and on the free list, with
no rollback. -/
theorem c10_mark_deleted_not_atomic (s : IndexState) (pre : List Int) (Lbad : Int)
    (rest : List Int)
    (hpres : ∀ L ∈ pre, mapFind? s.label_lookup_ L = some (mapFind s.label_lookup_ L))
    (hlive : ∀ L ∈ pre, s.is_deleted.getD (slotOfL s L) false = false)
    (hinb : ∀ L ∈ pre, slotOfL s L < s.is_deleted.length)
    (hnd : (pre.map (fun L => slotOfL s L)).Nodup)
    (hbp : mapFind? s.label_lookup_ Lbad = some (mapFind s.label_lookup_ Lbad))
    (hbd : s.is_deleted.getD (slotOfL s Lbad) false = true) :
    ∃ s1, mark_deleted s (pre ++ Lbad :: rest) = .error ("is_deleted[id] == false", s1) ∧
      s1.nremove = s.nremove + (pre ++ Lbad :: rest).length ∧
      ∀ L ∈ pre, s1.is_deleted.getD (slotOfL s L) false = true ∧
        slotOfL s L ∈ s1.deleted_elements := by
  obtain ⟨s1, heq, hnr, hfacts⟩ := markDeletedGo_fails pre Lbad rest
    { s with nremove := s.nremove + (pre ++ Lbad :: rest).length }
    hpres hlive hinb hnd hbp hbd
  exact ⟨s1, heq, hnr, hfacts⟩

/-- C10 witness: deleting the batch `{label 1, label 0}` on the fixture whose
slot 0 is already tombstoned throws on the second label, leaving `nremove`
bumped by 2 and label 1's slot already tombstoned and on the free list. -/
theorem c10_mark_deleted_not_atomic_witness :
    ∃ s1, mark_deleted stSearchTomb ([1] ++ 0 :: []) = .error ("is_deleted[id] == false", s1) ∧
      s1.nremove = stSearchTomb.nremove + ([1] ++ 0 :: []).length ∧
      ∀ L ∈ ([1] : List Int), s1.is_deleted.getD (slotOfL stSearchTomb L) false = true ∧
        slotOfL stSearchTomb L ∈ s1.deleted_elements :=
  c10_mark_deleted_not_atomic stSearchTomb [1] 0 [] (by decide) (by decide) (by decide)
    (by decide) (by decide) (by decide)

/- Lemmas characterizing the recycle loop of `add` when it consumes the whole
free list (`nremove = |deleted_elements| = n`). -/

theorem listResize_length {α : Type} (l : List α) (m : Nat) (fill : α) :
    (listResize l m fill).length = m := by
  simp [listResize]
  omega

theorem recycleGo_eq_recSpec (x : List Int) :
    ∀ (ds : List Nat) (s : IndexState) (pos n : Nat),
    s.deleted_elements = ds → s.nremove = ds.length → pos + ds.length = n →
    ds ≠ [] →
    recycleGo x n ds s pos = (n, recSpec x ds s pos) := by
  intro ds
  induction ds with
  | nil => intro s pos n _ _ _ hne; exact absurd rfl hne
  | cons id rest ih =>
    intro s pos n hde hnr hpn _
    rcases rest with _ | ⟨id2, rest2⟩
    · have hstep : recycleGo x n [id] s pos =
          if pos + 1 = n ∨ (recycleStep x s id [] pos).nremove = 0
          then (pos + 1, recycleStep x s id [] pos)
          else recycleGo x n [] (recycleStep x s id [] pos) (pos + 1) := rfl
      rw [hstep]
      have hz : (recycleStep x s id [] pos).nremove = 0 := by
        show s.nremove - 1 = 0
        rw [hnr]
        rfl
      rw [if_pos (Or.inr hz)]
      have hn : n = pos + 1 := by simp at hpn; omega
      subst hn
      rfl
    · simp only [List.length_cons] at hnr hpn
      have hstep : recycleGo x n (id :: id2 :: rest2) s pos =
          if pos + 1 = n ∨ (recycleStep x s id (id2 :: rest2) pos).nremove = 0
          then (pos + 1, recycleStep x s id (id2 :: rest2) pos)
          else recycleGo x n (id2 :: rest2) (recycleStep x s id (id2 :: rest2) pos) (pos + 1) :=
        rfl
      rw [hstep]
      have hnz : ¬ (pos + 1 = n ∨ (recycleStep x s id (id2 :: rest2) pos).nremove = 0) := by
        push_neg
        refine ⟨by omega, ?_⟩
        show s.nremove - 1 ≠ 0
        rw [hnr]
        omega
      rw [if_neg hnz]
      rw [ih (recycleStep x s id (id2 :: rest2) pos) (pos + 1) n rfl
        (by show s.nremove - 1 = (id2 :: rest2).length; rw [hnr]; simp)
        (by simp; omega) (by simp)]
      rfl

theorem recSpec_const_fields (x : List Int) :
    ∀ (ds : List Nat) (s : IndexState) (pos : Nat),
    (recSpec x ds s pos).ntotal = s.ntotal ∧
    (recSpec x ds s pos).d = s.d ∧
    (recSpec x ds s pos).is_trained = s.is_trained ∧
    (recSpec x ds s pos).codes.length = s.codes.length ∧
    (recSpec x ds s pos).label.length = s.label.length ∧
    (recSpec x ds s pos).nremove = s.nremove - ds.length ∧
    (recSpec x ds s pos).labelcount = s.labelcount + ds.length := by
  intro ds
  induction ds with
  | nil => intro s pos; simp [recSpec]
  | cons id rest ih =>
    intro s pos
    obtain ⟨h1, h2, h3, h4, h5, h6, h7⟩ := ih (recycleStep x s id rest pos) (pos + 1)
    refine ⟨?_, ?_, ?_, ?_, ?_, ?_, ?_⟩
    · simp only [recSpec]; rw [h1]; rfl
    · simp only [recSpec]; rw [h2]; rfl
    · simp only [recSpec]; rw [h3]; rfl
    · simp only [recSpec]; rw [h4]
      show (s.codes.set id (vecAt x s.d pos)).length = s.codes.length
      exact List.length_set _ _ _
    · simp only [recSpec]; rw [h5]
      show (s.label.set id (Int.ofNat s.labelcount)).length = s.label.length
      exact List.length_set _ _ _
    · simp only [recSpec]; rw [h6]
      show s.nremove - 1 - rest.length = s.nremove - (id :: rest).length
      simp only [List.length_cons]
      omega
    · simp only [recSpec]; rw [h7]
      show s.labelcount + 1 + rest.length = s.labelcount + (id :: rest).length
      simp only [List.length_cons]
      omega

theorem recSpec_deleted (x : List Int) :
    ∀ (ds : List Nat) (s : IndexState) (pos : Nat), s.deleted_elements = ds →
    (recSpec x ds s pos).deleted_elements = [] := by
  intro ds
  induction ds with
  | nil => intro s pos hde; simpa [recSpec] using hde
  | cons id rest ih =>
    intro s pos hde
    simp only [recSpec]
    exact ih (recycleStep x s id rest pos) (pos + 1) rfl

theorem recSpec_preserve (x : List Int) :
    ∀ (ds : List Nat) (s : IndexState) (pos a : Nat), a ∉ ds →
    (recSpec x ds s pos).codes.getD a [] = s.codes.getD a [] ∧
    (recSpec x ds s pos).label.getD a 0 = s.label.getD a 0 := by
  intro ds
  induction ds with
  | nil => intro s pos a _; simp [recSpec]
  | cons id rest ih =>
    intro s pos a ha
    simp only [List.mem_cons, not_or] at ha
    obtain ⟨h1, h2⟩ := ih (recycleStep x s id rest pos) (pos + 1) a ha.2
    constructor
    · simp only [recSpec]
      rw [h1]
      show (s.codes.set id (vecAt x s.d pos)).getD a [] = s.codes.getD a []
      exact getD_set_ne _ _ _ _ _ (fun hc => ha.1 hc.symm)
    · simp only [recSpec]
      rw [h2]
      show (s.label.set id (Int.ofNat s.labelcount)).getD a 0 = s.label.getD a 0
      exact getD_set_ne _ _ _ _ _ (fun hc => ha.1 hc.symm)

theorem recSpec_assigns (x : List Int) :
    ∀ (ds : List Nat) (s : IndexState) (pos : Nat), ds.Nodup →
    (∀ a ∈ ds, a < s.codes.length) → (∀ a ∈ ds, a < s.label.length) →
    ∀ i, i < ds.length →
      (recSpec x ds s pos).codes.getD (ds.getD i 0) [] = vecAt x s.d (pos + i) ∧
      (recSpec x ds s pos).label.getD (ds.getD i 0) 0 = Int.ofNat (s.labelcount + i) := by
  intro ds
  induction ds with
  | nil => intro s pos _ _ _ i hi; exact absurd hi (by simp)
  | cons id rest ih =>
    intro s pos hnd hc hl i hi
    rcases List.nodup_cons.mp hnd with ⟨hid, hndr⟩
    cases i with
    | zero =>
      simp only [List.getD_cons_zero]
      obtain ⟨p1, p2⟩ := recSpec_preserve x rest (recycleStep x s id rest pos) (pos + 1) id hid
      constructor
      · simp only [recSpec]
        rw [p1]
        show (s.codes.set id (vecAt x s.d pos)).getD id [] = vecAt x s.d (pos + 0)
        rw [Nat.add_zero]
        exact getD_set_self_of_lt _ _ _ _ (hc id (List.mem_cons_self id rest))
      · simp only [recSpec]
        rw [p2]
        show (s.label.set id (Int.ofNat s.labelcount)).getD id 0 = Int.ofNat (s.labelcount + 0)
        rw [Nat.add_zero]
        exact getD_set_self_of_lt _ _ _ _ (hl id (List.mem_cons_self id rest))
    | succ i =>
      simp only [List.getD_cons_succ]
      have hlen : i < rest.length := by simp at hi; omega
      obtain ⟨q1, q2⟩ := ih (recycleStep x s id rest pos) (pos + 1) hndr
        (fun a ha => by
          show a < (s.codes.set id (vecAt x s.d pos)).length
          rw [List.length_set]
          exact hc a (List.mem_cons_of_mem id ha))
        (fun a ha => by
          show a < (s.label.set id (Int.ofNat s.labelcount)).length
          rw [List.length_set]
          exact hl a (List.mem_cons_of_mem id ha))
        i hlen
      constructor
      · simp only [recSpec]
        rw [q1]
        show vecAt x s.d (pos + 1 + i) = vecAt x s.d (pos + (i + 1))
        rw [show pos + 1 + i = pos + (i + 1) from by omega]
      · simp only [recSpec]
        rw [q2]
        show Int.ofNat (s.labelcount + 1 + i) = Int.ofNat (s.labelcount + (i + 1))
        rw [show s.labelcount + 1 + i = s.labelcount + (i + 1) from by omega]

theorem markDeletedGo_clean :
    ∀ (ls : List Int) (s : IndexState),
    (∀ L ∈ ls, mapFind? s.label_lookup_ L = some (mapFind s.label_lookup_ L)) →
    (∀ L ∈ ls, s.is_deleted.getD (slotOfL s L) false = false) →
    ((ls.map (fun L => slotOfL s L)).Nodup) →
    (∀ L ∈ ls, slotOfL s L ∉ s.deleted_elements) →
    s.deleted_elements.Sorted (· < ·) →
    ∃ s1, markDeletedGo s ls = .ok s1 ∧
      s1.deleted_elements.Sorted (· < ·) ∧
      (∀ a, a ∈ s1.deleted_elements ↔
        a ∈ s.deleted_elements ∨ a ∈ ls.map (fun L => slotOfL s L)) ∧
      s1.deleted_elements.length = s.deleted_elements.length + ls.length ∧
      s1.nremove = s.nremove ∧ s1.ntotal = s.ntotal ∧ s1.codes = s.codes ∧
      s1.label = s.label ∧ s1.labelcount = s.labelcount ∧
      s1.label_lookup_ = s.label_lookup_ ∧ s1.d = s.d ∧
      s1.is_trained = s.is_trained := by
  intro ls
  induction ls with
  | nil =>
    intro s _ _ _ _ hsort
    exact ⟨s, rfl, hsort, by simp, by simp, rfl, rfl, rfl, rfl, rfl, rfl, rfl, rfl⟩
  | cons L rest ih =>
    intro s hpres hlive hnd hdisj hsort
    have hpL : mapFind? s.label_lookup_ L = some (mapFind s.label_lookup_ L) :=
      hpres L (List.mem_cons_self L rest)
    have hlL : s.is_deleted.getD (slotOfL s L) false = false :=
      hlive L (List.mem_cons_self L rest)
    have hnd2 : slotOfL s L ∉ rest.map (fun L => slotOfL s L) ∧
        (rest.map (fun L => slotOfL s L)).Nodup := by
      rw [List.map_cons, List.nodup_cons] at hnd
      exact hnd
    have hdisjL : slotOfL s L ∉ s.deleted_elements :=
      hdisj L (List.mem_cons_self L rest)
    obtain ⟨s1, heq, p1, p2, p3, p4, p5, p6, p7, p8, p9, p10, p11⟩ := ih
      { s with
        is_deleted := s.is_deleted.set (slotOfL s L) true,
        deleted_elements := setInsert (slotOfL s L) s.deleted_elements }
      (fun L' hL' => hpres L' (List.mem_cons_of_mem L hL'))
      (fun L' hL' => by
        show (s.is_deleted.set (slotOfL s L) true).getD (slotOfL s L') false = false
        rw [getD_set_ne]
        · exact hlive L' (List.mem_cons_of_mem L hL')
        · intro hcontra
          exact hnd2.1 (hcontra ▸ List.mem_map_of_mem (fun L => slotOfL s L) hL'))
      hnd2.2
      (fun L' hL' => by
        show slotOfL s L' ∉ setInsert (slotOfL s L) s.deleted_elements
        rw [mem_setInsert]
        push_neg
        constructor
        · intro hcontra
          exact hnd2.1 (hcontra ▸ List.mem_map_of_mem (fun L => slotOfL s L) hL')
        · exact hdisj L' (List.mem_cons_of_mem L hL'))
      (sorted_setInsert _ _ hsort)
    refine ⟨s1,
      by rw [markDeletedGo_cons_live s L rest hpL hlL]; exact heq,
      p1, ?_, ?_, p4, p5, p6, p7, p8, p9, p10, p11⟩
    · intro a
      rw [p2 a]
      show a ∈ setInsert (slotOfL s L) s.deleted_elements ∨ _ ↔ _
      rw [mem_setInsert, List.map_cons, List.mem_cons]
      tauto
    · rw [p3]
      show (setInsert (slotOfL s L) s.deleted_elements).length + rest.length = _
      rw [length_setInsert_of_not_mem _ _ hdisjL]
      simp only [List.length_cons]
      omega

/-- When `nremove` equals both `n` and the free-list size, `add` consumes the
whole free list: it recycles every free slot and appends nothing, ending in
the `recSpec` walk of the resized state. -/
theorem addOp_recycle_exact (s : IndexState) (n : Nat) (x : List Int)
    (htr : s.is_trained = true) (hn : 0 < n)
    (hnr : s.nremove = n) (hlen : s.deleted_elements.length = n) :
    addOp s n x = .ok (recSpec x s.deleted_elements
      { s with
        codes := listResize s.codes (s.ntotal + n) (List.replicate s.d 0),
        is_deleted := listResize s.is_deleted (s.ntotal + n) false,
        label := listResize s.label (s.ntotal + n) (-1) } 0) := by
  have hne : s.deleted_elements ≠ [] := by
    intro hnil
    rw [hnil] at hlen
    simp at hlen
    omega
  have heq := recycleGo_eq_recSpec x s.deleted_elements
    { s with
      codes := listResize s.codes (s.ntotal + n) (List.replicate s.d 0),
      is_deleted := listResize s.is_deleted (s.ntotal + n) false,
      label := listResize s.label (s.ntotal + n) (-1) } 0 n rfl
    (by show s.nremove = s.deleted_elements.length; omega) (by omega) hne
  obtain ⟨f1, f2, f3, f4, f5, f6, f7⟩ := recSpec_const_fields x s.deleted_elements
    { s with
      codes := listResize s.codes (s.ntotal + n) (List.replicate s.d 0),
      is_deleted := listResize s.is_deleted (s.ntotal + n) false,
      label := listResize s.label (s.ntotal + n) (-1) } 0
  have fdel := recSpec_deleted x s.deleted_elements
    { s with
      codes := listResize s.codes (s.ntotal + n) (List.replicate s.d 0),
      is_deleted := listResize s.is_deleted (s.ntotal + n) false,
      label := listResize s.label (s.ntotal + n) (-1) } 0 rfl
  simp only [addOp]
  rw [if_neg (by simp [htr]), if_neg (by omega), if_pos (by show 0 < s.nremove; omega)]
  rw [heq]
  rw [if_neg (by
    show ¬ _
    rw [fdel, f6]
    show ¬ ([] : List Nat).length ≠ s.nremove - s.deleted_elements.length
    simp
    omega)]
  rw [if_neg (by omega)]

/-- C5 amended: from an index state with **no** pending removals, after
deleting `m` distinct live labels and then inserting `m` new vectors, the new
vectors occupy exactly the `m` freed slots in ascending slot-id order (the
free list after the deletions is the sorted list of exactly the freed slots,
and its `i`-th entry receives input vector `i`), each recycled slot receives
the fresh label `labelcount + i` — distinct from every label the index
currently holds — and `pending_removals` returns to 0.  (The original claim
quantified over states that already have tombstoned slots; the counterexample
shows it fails there, and this is the nearby statement that holds.) -/
theorem c5_recycling_correct_from_clean (s : IndexState) (ls x : List Int)
    (htr : s.is_trained = true)
    (hnr : s.nremove = 0)
    (hde : s.deleted_elements = [])
    (hfresh : ∀ l ∈ s.label, l < (s.labelcount : Int))
    (hpres : ∀ L ∈ ls, mapFind? s.label_lookup_ L = some (mapFind s.label_lookup_ L))
    (hlive : ∀ L ∈ ls, s.is_deleted.getD (slotOfL s L) false = false)
    (hslot : ∀ L ∈ ls, slotOfL s L < s.ntotal)
    (hnd : (ls.map (fun L => slotOfL s L)).Nodup) :
    ∃ s1 s2, mark_deleted s ls = .ok s1 ∧ addOp s1 ls.length x = .ok s2 ∧
      s2.nremove = 0 ∧
      s2.ntotal = s.ntotal ∧
      s2.labelcount = s.labelcount + ls.length ∧
      s1.deleted_elements.Sorted (· < ·) ∧
      (∀ a, a ∈ s1.deleted_elements ↔ a ∈ ls.map (fun L => slotOfL s L)) ∧
      s1.deleted_elements.length = ls.length ∧
      ∀ i, i < ls.length →
        s2.codes.getD (s1.deleted_elements.getD i 0) [] = vecAt x s.d i ∧
        s2.label.getD (s1.deleted_elements.getD i 0) 0 = Int.ofNat (s.labelcount + i) ∧
        ∀ l ∈ s.label, l ≠ Int.ofNat (s.labelcount + i) := by
  obtain ⟨s1, hgo, q1, q2, q3, q4, q5, q6, q7, q8, q9, q10, q11⟩ :=
    markDeletedGo_clean ls { s with nremove := s.nremove + ls.length }
      hpres hlive hnd
      (fun L hL => by
        show slotOfL s L ∉ s.deleted_elements
        rw [hde]
        exact List.not_mem_nil _)
      (by
        show s.deleted_elements.Sorted (· < ·)
        rw [hde]
        exact List.sorted_nil)
  have hmd : mark_deleted s ls = .ok s1 := hgo
  have q2s : ∀ a, a ∈ s1.deleted_elements ↔
      a ∈ s.deleted_elements ∨ a ∈ ls.map (fun L => slotOfL s L) := q2
  have q2f : ∀ a, a ∈ s1.deleted_elements ↔ a ∈ ls.map (fun L => slotOfL s L) := by
    intro a
    rw [q2s a, hde]
    simp
  have q3s : s1.deleted_elements.length = s.deleted_elements.length + ls.length := q3
  have q3f : s1.deleted_elements.length = ls.length := by rw [q3s, hde]; simp
  have q4s : s1.nremove = s.nremove + ls.length := q4
  have q5s : s1.ntotal = s.ntotal := q5
  have q8s : s1.labelcount = s.labelcount := q8
  have q10s : s1.d = s.d := q10
  have q11s : s1.is_trained = s.is_trained := q11
  have hfreshGoal : ∀ i, ∀ l ∈ s.label, l ≠ Int.ofNat (s.labelcount + i) := by
    intro i l hl hcontra
    have hc := hfresh l hl
    rw [hcontra, Int.ofNat_eq_natCast] at hc
    push_cast at hc
    omega
  by_cases hls : ls = []
  · subst hls
    refine ⟨s1, s1, hmd, ?_, ?_, q5s, by rw [q8s]; simp, q1, ?_, by rw [q3f], ?_⟩
    · show addOp s1 0 x = .ok s1
      simp [addOp, q11s, htr]
    · rw [q4s, hnr]
      simp
    · intro a
      rw [q2f a]
    · intro i hi
      exact absurd hi (by simp)
  · have hm : 0 < ls.length := List.length_pos.mpr hls
    have haddeq := addOp_recycle_exact s1 ls.length x (by rw [q11s]; exact htr) hm
      (by rw [q4s, hnr]; simp) q3f
    obtain ⟨g1, g2, g3, g4, g5, g6, g7⟩ := recSpec_const_fields x s1.deleted_elements
      { s1 with
        codes := listResize s1.codes (s1.ntotal + ls.length) (List.replicate s1.d 0),
        is_deleted := listResize s1.is_deleted (s1.ntotal + ls.length) false,
        label := listResize s1.label (s1.ntotal + ls.length) (-1) } 0
    have hcb : ∀ a ∈ s1.deleted_elements, a <
        (listResize s1.codes (s1.ntotal + ls.length) (List.replicate s1.d 0)).length := by
      intro a ha
      rw [listResize_length]
      obtain ⟨L, hL, hLa⟩ := List.mem_map.mp ((q2f a).mp ha)
      have := hslot L hL
      rw [q5s]
      omega
    have hlb : ∀ a ∈ s1.deleted_elements, a <
        (listResize s1.label (s1.ntotal + ls.length) (-1)).length := by
      intro a ha
      rw [listResize_length]
      obtain ⟨L, hL, hLa⟩ := List.mem_map.mp ((q2f a).mp ha)
      have := hslot L hL
      rw [q5s]
      omega
    have hassign := recSpec_assigns x s1.deleted_elements
      { s1 with
        codes := listResize s1.codes (s1.ntotal + ls.length) (List.replicate s1.d 0),
        is_deleted := listResize s1.is_deleted (s1.ntotal + ls.length) false,
        label := listResize s1.label (s1.ntotal + ls.length) (-1) } 0
      q1.nodup hcb hlb
    refine ⟨s1, _, hmd, haddeq, ?_, ?_, ?_, q1, q2f, q3f, ?_⟩
    · rw [g6, q3f]
      show s1.nremove - ls.length = 0
      rw [q4s, hnr]
      omega
    · rw [g1]
      exact q5s
    · rw [g7, q3f]
      show s1.labelcount + ls.length = s.labelcount + ls.length
      rw [q8s]
    · intro i hi
      obtain ⟨a1, a2⟩ := hassign i (by rw [q3f]; exact hi)
      refine ⟨?_, ?_, hfreshGoal i⟩
      · rw [a1]
        show vecAt x s1.d (0 + i) = vecAt x s.d i
        rw [q10s, Nat.zero_add]
      · rw [a2]
        show Int.ofNat (s1.labelcount + i) = Int.ofNat (s.labelcount + i)
        rw [q8s]

/-- C5 witness: the amended theorem applied to a concrete clean three-vector
index, deleting labels 2 and 0 and re-inserting two vectors. -/
theorem c5_recycling_correct_from_clean_witness :
    ∃ s1 s2, mark_deleted stThree [2, 0] = .ok s1 ∧ addOp s1 2 [20, 30] = .ok s2 ∧
      s2.nremove = 0 ∧
      s2.ntotal = stThree.ntotal ∧
      s2.labelcount = stThree.labelcount + 2 ∧
      s1.deleted_elements.Sorted (· < ·) ∧
      (∀ a, a ∈ s1.deleted_elements ↔
        a ∈ ([2, 0] : List Int).map (fun L => slotOfL stThree L)) ∧
      s1.deleted_elements.length = 2 ∧
      ∀ i, i < 2 →
        s2.codes.getD (s1.deleted_elements.getD i 0) [] = vecAt [20, 30] stThree.d i ∧
        s2.label.getD (s1.deleted_elements.getD i 0) 0 = Int.ofNat (stThree.labelcount + i) ∧
        ∀ l ∈ stThree.label, l ≠ Int.ofNat (stThree.labelcount + i) :=
  c5_recycling_correct_from_clean stThree [2, 0] [20, 30] (by decide) (by decide)
    (by decide) (by decide) (by decide) (by decide) (by decide) (by decide)

/-- C9 witness: the theorem applied at a concrete state (L2 metric, `k = 1`). -/
theorem c9_metric_support_witness :
    (isOkE (range_search stOne 1 [0] 1 false) = true ↔
      (stOne.metric_type = .metric_inner_product ∨ stOne.metric_type = .metric_l2)) ∧
    (isOkE (compute_distance_subset stOne 1 [0] 1 [0]) = true ↔
      (stOne.metric_type = .metric_inner_product ∨ stOne.metric_type = .metric_l2)) ∧
    (isOkE (searchOp modelOracle stOne 1 [0] 1 false) = true ↔
      (stOne.metric_type = .metric_inner_product ∨ stOne.metric_type = .metric_l2 ∨
        stOne.metric_type = .metric_extra true ∨
        (stOne.metric_type = .metric_extra false ∧ false = false))) :=
  c9_metric_support modelOracle stOne 1 [0] 1 false 1 1 [0] (by decide)

end FaissFlatUpdate
